import Mathlib

/-!
Verification of the `chef` context-assembly engine (`src/core/context/Chef.ts`
and `src/core/context/Cookbook.ts`) via a shallow embedding.

Conventions of the embedding:
* JS values flowing through the engine are modelled by the inductive `Value`
  (strings, integers, booleans, null, arrays, objects).
* Providers ("recipes") are pure Lean functions; the cookbook maps a token to
  a recipe identity (`Nat`), mirroring the fact that the value cache is keyed
  by the recipe constructor, not the token string.
* The recursive resolver `prepare` carries a fuel parameter: the source has no
  cycle detection and a cyclic dependency graph recurses until resource
  exhaustion, which the embedding renders as the `resourceExhausted` error at
  fuel 0.
* Mutable engine state (value cache, plus a log of provider invocations used
  to express "the provider was not re-invoked") is threaded explicitly as
  `ChefState`; exceptions become `Except ChefError`.
-/

namespace Chef

abbrev Token := String

/-- JSON-like runtime values produced and consumed by providers. -/
inductive Value where
  | str (s : String)
  | num (n : Int)
  | bool (b : Bool)
  | null
  | arr (vs : List Value)
  | obj (fields : List (String × Value))

/-- One step of a declared sub-path: dotted-field or bracketed-index access,
the parsed form of the `jsonPath` strings built by `parseIngredientSpec` in
`Cookbook.ts` (e.g. `$.a.b[1]`). -/
inductive PathStep where
  | field (name : String)
  | index (i : Nat)
deriving DecidableEq, Repr

/-- Apply a single path step to a value; a mismatch (missing field, out of
range index, wrong shape) yields `none`, the embedding of the `undefined`
result of `JSONPath` with `wrap: false`. -/
def extractStep (v : Value) (st : PathStep) : Option Value :=
  match st with
  | .field name =>
    match v with
    | .obj fields => List.lookup name fields
    | _ => none
  | .index i =>
    match v with
    | .arr vs => vs.get? i
    | _ => none

/-- Apply a whole sub-path, left to right. -/
def extract (v : Value) : List PathStep → Option Value
  | [] => some v
  | st :: rest =>
    match extractStep v st with
    | none => none
    | some v' => extract v' rest

/-- JSON string escaping for one character (the cases relevant to
`JSON.stringify`). -/
def jsonEscapeChar (c : Char) : String :=
  if c = '\\' then "\\\\"
  else if c = '"' then "\\\""
  else if c = '\n' then "\\n"
  else String.singleton c

/-- JSON string escaping. -/
def jsonEscape (s : String) : String :=
  String.join (s.toList.map jsonEscapeChar)

mutual

/-- Embedding of `JSON.stringify` on `Value`. -/
def jsonStringify : Value → String
  | .str s => "\"" ++ jsonEscape s ++ "\""
  | .num n => toString n
  | .bool b => if b then "true" else "false"
  | .null => "null"
  | .arr vs => "[" ++ jsonStringifyList vs ++ "]"
  | .obj fields => "\x7b" ++ jsonStringifyFields fields ++ "\x7d"

/-- Comma-joined serialization of an array's elements. -/
def jsonStringifyList : List Value → String
  | [] => ""
  | [v] => jsonStringify v
  | v :: rest => jsonStringify v ++ "," ++ jsonStringifyList rest

/-- Comma-joined serialization of an object's fields. -/
def jsonStringifyFields : List (String × Value) → String
  | [] => ""
  | [(k, v)] => "\"" ++ jsonEscape k ++ "\":" ++ jsonStringify v
  | (k, v) :: rest =>
    "\"" ++ jsonEscape k ++ "\":" ++ jsonStringify v ++ "," ++
      jsonStringifyFields rest

end

/-- Rendering used throughout `cook`: a string value is used verbatim,
anything else goes through `JSON.stringify`. -/
def renderValue : Value → String
  | .str s => s
  | v => jsonStringify v

/-- Priority tag attached statically to a recipe (`static priority`):
a string or a number. -/
inductive PriorityTag where
  | str (s : String)
  | num (n : Int)
deriving Repr

/-- Parameter descriptor recorded by the `@ingredient` decorator:
a root token plus an optional parsed sub-path. -/
structure IngredientDescriptor where
  rootToken : Token
  jsonPath : Option (List PathStep)

/-- Static description of one registered recipe class: its name, its ordered
`@ingredient` parameter descriptors (a `none` entry is an undecorated
parameter), its pure `prepare` implementation, and the optional static hints
read reflectively by `Chef`. -/
structure RecipeDef where
  name : String
  ingredients : List (Option IngredientDescriptor)
  prepareFn : List (Option Value) → Value
  priority : Option PriorityTag := none
  compressible : Bool := false
  summaryRecipe : Option Token := none
  detailProfiles : Option (List (String × (Value → Value))) := none

/-- Static environment of one engine: the pantry (token to externally
supplied value), the cookbook (token to recipe identity, in registration
order), and the table of recipe definitions. -/
structure Env where
  pantry : Token → Option Value
  cookbook : List (Token × Nat)
  recipes : Nat → RecipeDef

/-- Mutable per-instance state: the value cache keyed by recipe identity,
plus a log of recipe invocations (in order) used to state memoization. -/
structure ChefState where
  valueCache : List (Nat × Value)
  invoked : List Nat

/-- Errors thrown by the resolution path. `resourceExhausted` models running
out of stack/fuel on unbounded recursion; the source defines no cyclic
dependency error. -/
inductive ChefError where
  | noProvider (token : Token)
  | contractViolation (token : Token)
  | resourceExhausted
deriving DecidableEq, Repr

/-- Resolve the arguments of a recipe invocation (the loop over `paramDescs`
in `invokeRecipe`): an undecorated parameter gets `undefined` (`none`); a
decorated one has its root token resolved via `rec`, then the declared
sub-path (if any) applied, failing with `contractViolation` when the
extraction comes back absent, so that `undefined` is never passed on. -/
def resolveArgs (rec : Token → ChefState → Except ChefError Value × ChefState) :
    List (Option IngredientDescriptor) → ChefState →
      Except ChefError (List (Option Value)) × ChefState
  | [], s => (.ok [], s)
  | none :: rest, s =>
    match resolveArgs rec rest s with
    | (.ok args, s') => (.ok (none :: args), s')
    | (.error e, s') => (.error e, s')
  | some d :: rest, s =>
    match rec d.rootToken s with
    | (.error e, s') => (.error e, s')
    | (.ok rootVal, s') =>
      match (match d.jsonPath with
             | none => some rootVal
             | some path => extract rootVal path) with
      | none => (.error (.contractViolation d.rootToken), s')
      | some v =>
        match resolveArgs rec rest s' with
        | (.ok args, s'') => (.ok (some v :: args), s'')
        | (.error e, s'') => (.error e, s'')

/-- Invoke a recipe: resolve its declared ingredients, call its `prepare`
with them, and record the invocation in the log. -/
def invokeRecipe (rec : Token → ChefState → Except ChefError Value × ChefState)
    (env : Env) (rid : Nat) (s : ChefState) : Except ChefError Value × ChefState :=
  let r := env.recipes rid
  match resolveArgs rec r.ingredients s with
  | (.error e, s') => (.error e, s')
  | (.ok args, s') =>
    (.ok (r.prepareFn args), { s' with invoked := s'.invoked ++ [rid] })

/-- Embedding of `Chef.prepare`: pantry first (pantry values are never
memoized by the engine), then cookbook lookup, then the value cache keyed by
recipe identity, else invoke the recipe and cache its output. The fuel
parameter bounds the recursion depth; the source performs no cycle
detection, so exhausting the fuel models unbounded recursion ending in
resource exhaustion. -/
def prepare (env : Env) : Nat → Token → ChefState →
    Except ChefError Value × ChefState
  | 0, _, s => (.error .resourceExhausted, s)
  | fuel + 1, token, s =>
    match env.pantry token with
    | some v => (.ok v, s)
    | none =>
      match List.lookup token env.cookbook with
      | none => (.error (.noProvider token), s)
      | some rid =>
        match List.lookup rid s.valueCache with
        | some v => (.ok v, s)
        | none =>
          match invokeRecipe (prepare env fuel) env rid s with
          | (.error e, s') => (.error e, s')
          | (.ok v, s') => (.ok v, { s' with valueCache := (rid, v) :: s'.valueCache })

/-- One dependency edge shown in a trace entry. -/
structure TraceDep where
  token : Token
  via : String
deriving DecidableEq, Repr

/-- One entry of a dependency trace: who produced the token and which tokens
it consumed. -/
structure TraceEntry where
  token : Token
  providerName : String
  deps : List TraceDep
deriving DecidableEq, Repr

/-- Render a parsed sub-path the way `Chef.trace` prints it
(`"." + jsonPath.slice(2)` on the `$.`-rooted string). -/
def renderPath : List PathStep → String
  | [] => ""
  | .field name :: rest => "." ++ name ++ renderPath rest
  | .index i :: rest => "[" ++ toString i ++ "]" ++ renderPath rest

/-- The `via` string recorded for one ingredient edge. -/
def depVia (d : IngredientDescriptor) : String :=
  "@ingredient(\"" ++ d.rootToken ++
    (match d.jsonPath with
     | none => ""
     | some path => renderPath path) ++ "\")"

/-- Walk the ingredient descriptors of one recipe, collecting dependency
edges and recursively visiting each root token through `rec`. -/
def traceDeps
    (rec : Token → List (Token × TraceEntry) →
      Except ChefError (List (Token × TraceEntry))) :
    List (Option IngredientDescriptor) → List (Token × TraceEntry) →
      Except ChefError (List TraceDep × List (Token × TraceEntry))
  | [], seen => .ok ([], seen)
  | none :: rest, seen => traceDeps rec rest seen
  | some d :: rest, seen =>
    match rec d.rootToken seen with
    | .error e => .error e
    | .ok seen' =>
      match traceDeps rec rest seen' with
      | .error e => .error e
      | .ok (deps, seen'') => .ok (⟨d.rootToken, depVia d⟩ :: deps, seen'')

/-- Embedding of the recursive `visit` inside `Chef.trace`. The `seen` map
(an insertion-ordered association list) deduplicates tokens; note that a
recipe's entry is only added after its dependencies are visited, so the fuel
is needed for cyclic metadata too. -/
def traceVisit (env : Env) : Nat → Token → List (Token × TraceEntry) →
    Except ChefError (List (Token × TraceEntry))
  | 0, _, _ => .error .resourceExhausted
  | fuel + 1, token, seen =>
    if (List.lookup token seen).isSome then .ok seen
    else
      match env.pantry token with
      | some _ => .ok (seen ++ [(token, ⟨token, "pantry", []⟩)])
      | none =>
        match List.lookup token env.cookbook with
        | none => .error (.noProvider token)
        | some rid =>
          match traceDeps (traceVisit env fuel) (env.recipes rid).ingredients seen with
          | .error e => .error e
          | .ok (deps, seen') =>
            .ok (seen' ++ [(token, ⟨token, (env.recipes rid).name, deps⟩)])

/-- Embedding of `Chef.trace`: run the visit from an empty `seen` map and
return the entries in insertion order (`Array.from(seen.values())`). -/
def trace (env : Env) (fuel : Nat) (rootToken : Token) :
    Except ChefError (List TraceEntry) :=
  match traceVisit env fuel rootToken [] with
  | .error e => .error e
  | .ok seen => .ok (seen.map Prod.snd)

/-- The naive fallback tokenizer used when the caller supplies none:
`Math.ceil(text.length / 4)`. -/
def defaultCountTokens (text : String) : Nat :=
  (text.length + 3) / 4

/-- The argument record passed to `rankPriority`. -/
structure RankInfo where
  token : Token
  recipeName : String
  priorityTag : Option PriorityTag
  index : Nat

/-- The built-in priority ranker: numeric tags pass through, well-known
strings map through a fixed case-insensitive table, anything else scores
50. -/
def defaultRankPriority (info : RankInfo) : Int :=
  match info.priorityTag with
  | some (.num n) => n
  | some (.str tag) =>
    let lowered := tag.toLower
    if lowered = "critical" then 100
    else if lowered = "must" then 90
    else if lowered = "high" then 75
    else if lowered = "normal" then 50
    else if lowered = "medium" then 50
    else if lowered = "low" then 25
    else if lowered = "optional" then 10
    else 50
  | none => 50

/-- An order item: a bare token string or a token with an optional detail
label. -/
inductive OrderItem where
  | bare (token : Token)
  | withDetail (token : Token) (detail : Option String)

/-- A normalized order entry: token, detail (defaulted to "full"), and its
position in the order. -/
structure NormalizedItem where
  token : Token
  detail : String
  index : Nat

/-- Normalize a single order item at position `i`. -/
def normalizeOrderItem (i : Nat) : OrderItem → NormalizedItem
  | .bare token => ⟨token, "full", i⟩
  | .withDetail token detail => ⟨token, detail.getD "full", i⟩

/-- The default order when none is supplied: every registered token in
registration order, at detail "full". -/
def defaultOrder (env : Env) : List NormalizedItem :=
  (env.cookbook.map Prod.fst).enum.map fun p => ⟨p.2, "full", p.1⟩

/-- Normalize the caller's order; an absent or empty order falls back to the
whole cookbook. -/
def normalizeOrder (env : Env) (order : Option (List OrderItem)) :
    List NormalizedItem :=
  match order with
  | some items =>
    if items.length > 0 then items.enum.map fun p => normalizeOrderItem p.1 p.2
    else defaultOrder env
  | none => defaultOrder env

/-- One materialized order item, mirroring the `preparedItems` entries built
by the first pass of `cook`. -/
structure PreparedItem where
  token : Token
  detailRequested : String
  baselineRendered : String
  baselineCost : Nat
  compressedRendered : Option String := none
  compressedCost : Option Nat := none
  compressionNote : Option String := none
  trace : Option (List TraceEntry) := none
  recipeName : String := "pantry"
  priorityTag : Option PriorityTag := none
  priorityScore : Int
  index : Nat

/-- Materialize one normalized order item: resolve the token, apply the
requested detail profile when the recipe declares one, render and cost the
baseline, probe for a compressed fallback via the summary recipe (failures
swallowed), resolve the priority score, and trace lineage in explain mode. -/
def materializeOne (env : Env) (fuel : Nat) (ct : String → Nat)
    (rank : RankInfo → Int) (explain : Bool) (it : NormalizedItem)
    (s : ChefState) : Except ChefError PreparedItem × ChefState :=
  match prepare env fuel it.token s with
  | (.error e, s1) => (.error e, s1)
  | (.ok value, s1) =>
    let ctorOpt := List.lookup it.token env.cookbook
    let recipeName :=
      match ctorOpt with
      | some rid => (env.recipes rid).name
      | none => "pantry"
    let priorityTag := ctorOpt.bind fun rid => (env.recipes rid).priority
    let materialized :=
      match ctorOpt with
      | some rid =>
        match (env.recipes rid).detailProfiles with
        | some profiles =>
          match List.lookup it.detail profiles with
          | some profileFn => profileFn value
          | none => value
        | none => value
      | none => value
    let baselineRendered := renderValue materialized
    let baselineCost := ct baselineRendered
    let compressed : Option String × Option Nat × Option String × ChefState :=
      match ctorOpt with
      | some rid =>
        let r := env.recipes rid
        match r.summaryRecipe with
        | some summaryToken =>
          if r.compressible ∧ summaryToken ≠ "" then
            match prepare env fuel summaryToken s1 with
            | (.ok summaryVal, s2) =>
              let summaryStr := renderValue summaryVal
              (some summaryStr, some (ct summaryStr),
                some ("compressed via " ++ summaryToken), s2)
            | (.error _, s2) => (none, none, none, s2)
          else (none, none, none, s1)
        | none => (none, none, none, s1)
      | none => (none, none, none, s1)
    match compressed with
    | (compressedRendered, compressedCost, compressionNote, s2) =>
      let priorityScore := rank ⟨it.token, recipeName, priorityTag, it.index⟩
      if explain then
        match trace env fuel it.token with
        | .error e => (.error e, s2)
        | .ok traceEntries =>
          (.ok { token := it.token, detailRequested := it.detail,
                 baselineRendered, baselineCost, compressedRendered,
                 compressedCost, compressionNote,
                 trace := some traceEntries, recipeName, priorityTag,
                 priorityScore, index := it.index }, s2)
      else
        (.ok { token := it.token, detailRequested := it.detail,
               baselineRendered, baselineCost, compressedRendered,
               compressedCost, compressionNote, trace := none, recipeName,
               priorityTag, priorityScore, index := it.index }, s2)

/-- The first pass of `cook`: materialize each normalized order item in
request order, threading the engine state; any error aborts the call. -/
def materializeItems (env : Env) (fuel : Nat) (ct : String → Nat)
    (rank : RankInfo → Int) (explain : Bool) :
    List NormalizedItem → ChefState →
      Except ChefError (List PreparedItem) × ChefState
  | [], s => (.ok [], s)
  | it :: rest, s =>
    match materializeOne env fuel ct rank explain it s with
    | (.error e, s') => (.error e, s')
    | (.ok p, s') =>
      match materializeItems env fuel ct rank explain rest s' with
      | (.error e, s'') => (.error e, s'')
      | (.ok ps, s'') => (.ok (p :: ps), s'')

/-- The cheapest viable cost of a candidate:
`Math.min(baselineCost, compressedCost ?? Infinity)`. -/
def minCost (it : PreparedItem) : Nat :=
  match it.compressedCost with
  | some c => min it.baselineCost c
  | none => it.baselineCost

/-- The total order used to rank non-first candidates: priority score
descending, then cheapest viable cost ascending, then original index
ascending. -/
def candLE (a b : PreparedItem) : Prop :=
  b.priorityScore < a.priorityScore ∨
    (a.priorityScore = b.priorityScore ∧
      (minCost a < minCost b ∨ (minCost a = minCost b ∧ a.index ≤ b.index)))

instance : DecidableRel candLE := fun a b =>
  inferInstanceAs (Decidable (b.priorityScore < a.priorityScore ∨
    (a.priorityScore = b.priorityScore ∧
      (minCost a < minCost b ∨
        (minCost a = minCost b ∧ a.index ≤ b.index)))))

/-- The planner's sort of the non-first candidates. -/
def sortCandidates (l : List PreparedItem) : List PreparedItem :=
  List.insertionSort candLE l

/-- One planning decision, mirroring `PlanDecision` in the source
(`include` is spelled `incl`). -/
structure PlanDecision where
  incl : Bool
  forced : Bool
  usedCompressed : Bool
  usedRendered : String
  usedCost : Nat
  reason : String

/-- The forced decision for the first order item under a budget: always
included; its compressed form is used only when the compressed rendering is
a non-empty string and its cost is strictly below baseline. -/
def planFirst (first : PreparedItem) : PlanDecision :=
  match first.compressedRendered, first.compressedCost with
  | some r, some c =>
    if r ≠ "" ∧ c < first.baselineCost then
      ⟨true, true, true, r, c,
        "first item is always included (compressed to save budget)"⟩
    else
      ⟨true, true, false, first.baselineRendered, first.baselineCost,
        "first item is always included"⟩
  | _, _ =>
    ⟨true, true, false, first.baselineRendered, first.baselineCost,
      "first item is always included"⟩

/-- The dropped decision recorded when neither form of a candidate fits. -/
def dropDecision (cand : PreparedItem) : PlanDecision :=
  ⟨false, false, false, cand.baselineRendered,
    min cand.baselineCost (cand.compressedCost.getD cand.baselineCost),
    "excluded due to budget/priority"⟩

/-- Greedy admission of one candidate against the running total `t`: baseline
first, else the compressed fallback (which must be a non-empty string, the
embedding of the JS truthiness test on `compressedRendered`), else drop.
Returns the decision and the updated running total. -/
def planStep (budget t : Nat) (cand : PreparedItem) : PlanDecision × Nat :=
  if t + cand.baselineCost ≤ budget then
    (⟨true, false, false, cand.baselineRendered, cand.baselineCost,
       "selected by priority within budget"⟩, t + cand.baselineCost)
  else
    match cand.compressedRendered, cand.compressedCost with
    | some r, some c =>
      if r ≠ "" ∧ t + c ≤ budget then
        (⟨true, false, true, r, c, "compressed to fit budget"⟩, t + c)
      else (dropDecision cand, t)
    | _, _ => (dropDecision cand, t)

/-- The greedy loop over the sorted candidates, accumulating plan entries in
evaluation order and updating the running total immediately after each
inclusion. -/
def planCandidates (budget : Nat) :
    List PreparedItem → Nat → List (Nat × PlanDecision) →
      List (Nat × PlanDecision) × Nat
  | [], t, plan => (plan, t)
  | cand :: rest, t, plan =>
    let (d, t') := planStep budget t cand
    planCandidates budget rest t' (plan ++ [(cand.index, d)])

/-- Phase 2 of `cook`: the selection plan, keyed by original index. Without
a budget every item is included at baseline; with a budget the first item is
forced and the rest are admitted greedily in sorted order. -/
def cookPlan (budget : Option Nat) (items : List PreparedItem) :
    List (Nat × PlanDecision) × Nat :=
  match budget with
  | none =>
    (items.map fun it =>
       (it.index, ⟨true, it.index == 0, false, it.baselineRendered,
         it.baselineCost, "no budget provided"⟩),
     (items.map (·.baselineCost)).sum)
  | some b =>
    match items with
    | [] => ([], 0)
    | first :: rest =>
      let d0 := planFirst first
      planCandidates b (sortCandidates rest) d0.usedCost [(first.index, d0)]

/-- The decision kind recorded on a plate. -/
inductive Decision where
  | forcedInclude
  | included
  | dropped
deriving DecidableEq, Repr

/-- Per-item provenance returned in explain mode. -/
structure PlateInfo where
  token : Token
  decision : Decision
  reason : String
  servedDetail : String
  priorityTag : Option PriorityTag
  priorityScore : Int
  wasCompressed : Bool
  compressionNote : Option String
  originalCost : Nat
  compressedCost : Option Nat
  cost : Nat
  runningTotalBefore : Nat
  runningTotalAfter : Nat
  lineage : List TraceEntry

/-- The decision label computed during plating. -/
def plateDecision (budget : Option Nat) (incl : Bool) (index : Nat) :
    Decision :=
  if incl then
    match budget with
    | none => .included
    | some _ => if index == 0 then .forcedInclude else .included
  else .dropped

/-- Build one plate record from an item, its plan decision, and the running
totals around it. -/
def mkPlate (budget : Option Nat) (item : PreparedItem) (d : PlanDecision)
    (before after : Nat) : PlateInfo :=
  { token := item.token
    decision := plateDecision budget d.incl item.index
    reason := d.reason
    servedDetail := item.detailRequested
    priorityTag := item.priorityTag
    priorityScore := item.priorityScore
    wasCompressed := d.usedCompressed
    compressionNote := if d.usedCompressed then item.compressionNote else none
    originalCost := item.baselineCost
    compressedCost := item.compressedCost
    cost := d.usedCost
    runningTotalBefore := before
    runningTotalAfter := after
    lineage := item.trace.getD [] }

/-- Phase 3 of `cook`: walk the items in original order, emit the rendered
line and bump the running total for each included item, and build the plate
records. An item whose index is missing from the plan is skipped, as in the
source. -/
def plateItems (budget : Option Nat) (plan : List (Nat × PlanDecision)) :
    List PreparedItem → Nat → List String × Nat × List PlateInfo
  | [], t => ([], t, [])
  | item :: rest, t =>
    match List.lookup item.index plan with
    | none => plateItems budget plan rest t
    | some d =>
      let t' := if d.incl then t + d.usedCost else t
      let (lines, total, plates) := plateItems budget plan rest t'
      ((if d.incl then (d.usedRendered ++ "\n") :: lines else lines),
        total, mkPlate budget item d t t' :: plates)

/-- The detailed result of `cook({ explain: true })`. -/
structure CookExplainResult where
  context : String
  totalTokens : Nat
  budget : Option Nat
  plates : List PlateInfo

/-- Embedding of `cook` in explain mode: normalize the order, materialize
every item, plan under the optional budget, and plate in original order. -/
def cookExplain (env : Env) (fuel : Nat) (order : Option (List OrderItem))
    (budget : Option Nat) (countTokens : Option (String → Nat))
    (rankPriority : Option (RankInfo → Int)) (s : ChefState) :
    Except ChefError CookExplainResult × ChefState :=
  let ct := countTokens.getD defaultCountTokens
  let rank := rankPriority.getD defaultRankPriority
  let normalized := normalizeOrder env order
  match materializeItems env fuel ct rank true normalized s with
  | (.error e, s') => (.error e, s')
  | (.ok items, s') =>
    let plan := (cookPlan budget items).1
    match plateItems budget plan items 0 with
    | (lines, total, plates) =>
      (.ok ⟨String.intercalate "\n" lines, total, budget, plates⟩, s')

/-- Embedding of `cook` without explain: same pipeline, but lineage is not
traced and only the joined context string is returned. -/
def cookNoExplain (env : Env) (fuel : Nat) (order : Option (List OrderItem))
    (budget : Option Nat) (countTokens : Option (String → Nat))
    (rankPriority : Option (RankInfo → Int)) (s : ChefState) :
    Except ChefError String × ChefState :=
  let ct := countTokens.getD defaultCountTokens
  let rank := rankPriority.getD defaultRankPriority
  let normalized := normalizeOrder env order
  match materializeItems env fuel ct rank false normalized s with
  | (.error e, s') => (.error e, s')
  | (.ok items, s') =>
    let plan := (cookPlan budget items).1
    match plateItems budget plan items 0 with
    | (lines, _, _) => (.ok (String.intercalate "\n" lines), s')

/-- The accounting-chain predicate over a plate list: starting from total
`t`, each plate's `runningTotalBefore` is the incoming total, its
`runningTotalAfter` adds its cost unless it was dropped, and the chain
continues from there. -/
def chainFrom : Nat → List PlateInfo → Prop
  | _, [] => True
  | t, p :: rest =>
    p.runningTotalBefore = t ∧
    p.runningTotalAfter = (if p.decision = .dropped then t else t + p.cost) ∧
    chainFrom p.runningTotalAfter rest

/-- Total cost of the plates that were not dropped. -/
def keptCosts (plates : List PlateInfo) : Nat :=
  ((plates.filter fun p => p.decision != Decision.dropped).map
    (fun p => p.cost)).sum

/-- The fresh state of a newly constructed engine instance. -/
def initState : ChefState := ⟨[], []⟩

/-- An empty result, used only as a `getD` default when projecting a
concrete successful cook. -/
def emptyResult : CookExplainResult := ⟨"", 0, none, []⟩

/-- Project the result out of a concrete successful `cookExplain` run. -/
def resOf (r : Except ChefError CookExplainResult × ChefState) :
    CookExplainResult :=
  r.1.toOption.getD emptyResult

/-- Example recipe table: recipe 0 ("B") is compressible via token "BS";
recipe 1 ("BSum") summarizes it to the empty string. -/
def demoRecipes : Nat → RecipeDef
  | 0 => { name := "B", ingredients := [],
           prepareFn := fun _ => .str "BBBBBBBBBBBBBBBBBBBBBBBBBBBBBBBBBBBBBBBB",
           compressible := true, summaryRecipe := some "BS" }
  | 1 => { name := "BSum", ingredients := [], prepareFn := fun _ => .str "" }
  | _ => { name := "none", ingredients := [], prepareFn := fun _ => .null }

/-- Example environment: pantry token "A" (4 characters, cost 1 under the
default tokenizer) plus the two demo recipes. -/
def demoEnv : Env :=
  { pantry := fun t => if t = "A" then some (.str "AAAA") else none,
    cookbook := [("B", 0), ("BS", 1)],
    recipes := demoRecipes }

/-- A concrete budgeted explain-mode cook over `demoEnv`: "A" (cost 1) is
first, "B" (baseline cost 10, compressed rendering "" of cost 0) second,
budget 5. -/
def resBudget : CookExplainResult :=
  resOf (cookExplain demoEnv 5 (some [.bare "A", .bare "B"]) (some 5)
    none none initState)

/-- The same order cooked without a budget. -/
def resNoBudget : CookExplainResult :=
  resOf (cookExplain demoEnv 5 (some [.bare "A", .bare "B"]) none
    none none initState)

/-- A one-item budgeted cook over `demoEnv`, used to exercise the
forced-include path. -/
def resFirstOnly : CookExplainResult :=
  resOf (cookExplain demoEnv 5 (some [.bare "A"]) (some 10)
    none none initState)

/-- An environment whose single recipe depends on itself: the smallest
genuine dependency cycle. -/
def cyclicEnv : Env :=
  { pantry := fun _ => none,
    cookbook := [("Loop", 0)],
    recipes := fun _ =>
      { name := "Loop", ingredients := [some ⟨"Loop", none⟩],
        prepareFn := fun _ => .null } }

/-- A two-recipe acyclic environment: "Top" consumes "Leaf". -/
def chainEnv : Env :=
  { pantry := fun _ => none,
    cookbook := [("Top", 0), ("Leaf", 1)],
    recipes := fun rid =>
      if rid = 0 then
        { name := "Top", ingredients := [some ⟨"Leaf", none⟩],
          prepareFn := fun _ => .str "top" }
      else
        { name := "Leaf", ingredients := [], prepareFn := fun _ => .str "leaf" } }

/-- A rank function witnessing that `chainEnv`'s dependency graph is
acyclic. -/
def chainRank (t : Token) : Nat :=
  if t = "Top" then 1 else 0

/-- The sub-path example value from the spec: `{a: {b: [10, 20]}}`. -/
def subPathRoot : Value :=
  .obj [("a", .obj [("b", .arr [.num 10, .num 20])])]

/-- An environment whose pantry serves `subPathRoot` under token "root". -/
def subPathEnv : Env :=
  { pantry := fun t => if t = "root" then some subPathRoot else none,
    cookbook := [],
    recipes := fun _ => { name := "none", ingredients := [], prepareFn := fun _ => .null } }

/-- An environment with one compressible recipe "X" whose declared summary
token "missing" is registered nowhere, so the compression probe fails. -/
def missingSummaryEnv : Env :=
  { pantry := fun _ => none,
    cookbook := [("X", 0)],
    recipes := fun _ =>
      { name := "X", ingredients := [], prepareFn := fun _ => .str "hello",
        compressible := true, summaryRecipe := some "missing" } }

/-- A candidate with a low priority score. -/
def candLo : PreparedItem :=
  { token := "lo", detailRequested := "full", baselineRendered := "lo",
    baselineCost := 3, priorityScore := 10, index := 1 }

/-- A candidate with a high priority score. -/
def candHi : PreparedItem :=
  { token := "hi", detailRequested := "full", baselineRendered := "hi",
    baselineCost := 7, priorityScore := 90, index := 2 }

/-- A candidate whose compressed fallback ("CC", cost 10) does not fit a
small budget. -/
def candBig : PreparedItem :=
  { token := "big", detailRequested := "full", baselineRendered := "big",
    baselineCost := 10, compressedRendered := some "CC",
    compressedCost := some 10, priorityScore := 50, index := 1 }

/-! ## Theorems -/

/-- C10: calling `cook` with an explicitly empty order list behaves
identically to calling `cook` with no order at all; both default to
requesting every registered token, in registration order, at detail
"full". -/
theorem cook_empty_order_eq_no_order (env : Env) (fuel : Nat)
    (budget : Option Nat) (ct : Option (String → Nat))
    (rp : Option (RankInfo → Int)) (s : ChefState) :
    cookExplain env fuel (some []) budget ct rp s
      = cookExplain env fuel none budget ct rp s ∧
    cookNoExplain env fuel (some []) budget ct rp s
      = cookNoExplain env fuel none budget ct rp s ∧
    normalizeOrder env (some []) = defaultOrder env ∧
    (defaultOrder env).map (fun it => (it.token, it.detail))
      = (env.cookbook.map Prod.fst).map (fun tok => (tok, "full")) := by
  refine ⟨rfl, rfl, rfl, ?_⟩
  unfold defaultOrder
  rw [List.map_map]
  have h1 : ((fun it : NormalizedItem => (it.token, it.detail)) ∘
      (fun p : Nat × Token => (⟨p.2, "full", p.1⟩ : NormalizedItem)))
      = (fun tok : Token => (tok, "full")) ∘ Prod.snd := rfl
  rw [h1, ← List.map_map, List.enum_map_snd]

/-- Helper: a successful resolution of a non-pantry token leaves the
resolved value in the cache under the token's recipe identity. -/
theorem prepare_ok_cache (env : Env) (fuel : Nat) (token : Token)
    (s s₁ : ChefState) (v : Value)
    (hp : env.pantry token = none)
    (h : prepare env fuel token s = (.ok v, s₁)) :
    ∃ rid, List.lookup token env.cookbook = some rid ∧
      List.lookup rid s₁.valueCache = some v := by
  cases fuel with
  | zero => simp [prepare] at h
  | succ n =>
    simp only [prepare, hp] at h
    cases hcb : List.lookup token env.cookbook with
    | none => simp only [hcb] at h; simp at h
    | some rid =>
      simp only [hcb] at h
      refine ⟨rid, rfl, ?_⟩
      cases hc : List.lookup rid s.valueCache with
      | some w =>
        simp only [hc, Prod.mk.injEq, Except.ok.injEq] at h
        obtain ⟨rfl, rfl⟩ := h
        exact hc
      | none =>
        simp only [hc] at h
        cases hi : invokeRecipe (prepare env n) env rid s with
        | mk res s' =>
          cases res with
          | error e => simp only [hi] at h; simp at h
          | ok w =>
            simp only [hi, Prod.mk.injEq, Except.ok.injEq] at h
            obtain ⟨rfl, rfl⟩ := h
            simp [List.lookup]

/-- C5: once a non-pantry token has been resolved, any later resolution of
any token mapped to the same recipe identity (in particular the same token,
even in a later cook call on the same instance) returns the identical cached
value and leaves the state — including the invocation log — unchanged: the
provider is not re-invoked, and the cache is keyed by recipe identity, not
by token string. -/
theorem provider_invoked_at_most_once (env : Env) (fuel : Nat)
    (token : Token) (s s₁ : ChefState) (v : Value)
    (hp : env.pantry token = none)
    (h : prepare env fuel token s = (.ok v, s₁)) :
    ∀ fuel₂ token₂ rid, 1 ≤ fuel₂ →
      env.pantry token₂ = none →
      List.lookup token env.cookbook = some rid →
      List.lookup token₂ env.cookbook = some rid →
      prepare env fuel₂ token₂ s₁ = (.ok v, s₁) := by
  intro fuel₂ token₂ rid hf hp₂ hcb hcb₂
  obtain ⟨rid', hcb', hcache⟩ := prepare_ok_cache env fuel token s s₁ v hp h
  rw [hcb] at hcb'
  injection hcb' with e
  subst e
  obtain ⟨m, rfl⟩ : ∃ m, fuel₂ = m + 1 := ⟨fuel₂ - 1, by omega⟩
  simp only [prepare, hp₂, hcb₂, hcache]

/-- Witness for C5: resolving recipe-backed token "X" a second time on the
same instance returns the cached value with the state untouched. -/
theorem provider_invoked_at_most_once_witness :
    prepare missingSummaryEnv 3 "X" initState
      = (.ok (.str "hello"), ⟨[(0, .str "hello")], [0]⟩) ∧
    prepare missingSummaryEnv 2 "X" ⟨[(0, .str "hello")], [0]⟩
      = (.ok (.str "hello"), ⟨[(0, .str "hello")], [0]⟩) :=
  ⟨rfl,
    provider_invoked_at_most_once missingSummaryEnv 3 "X" initState
      ⟨[(0, .str "hello")], [0]⟩ (.str "hello") rfl rfl 2 "X" 0
      (by omega) rfl rfl rfl⟩

/-- C6: for an ingredient with a declared sub-path, once the root token is
resolved the sub-path extraction is applied to the root value: when it
yields a value, exactly that value is passed on as the resolved argument;
when it comes back absent, resolution fails with a contract violation
instead of passing an undefined value to the provider. -/
theorem subPath_extraction
    (rec : Token → ChefState → Except ChefError Value × ChefState)
    (d : IngredientDescriptor) (path : List PathStep)
    (hpath : d.jsonPath = some path)
    (s s₁ : ChefState) (rootVal : Value)
    (hroot : rec d.rootToken s = (.ok rootVal, s₁)) :
    (extract rootVal path = none →
      ∀ rest, resolveArgs rec (some d :: rest) s
        = (.error (.contractViolation d.rootToken), s₁)) ∧
    (∀ v, extract rootVal path = some v →
      ∀ rest, resolveArgs rec (some d :: rest) s
        = (match resolveArgs rec rest s₁ with
           | (.ok args, s₂) => (.ok (some v :: args), s₂)
           | (.error e, s₂) => (.error e, s₂))) := by
  constructor
  · intro hnone rest
    simp [resolveArgs, hroot, hpath, hnone]
  · intro v hsome rest
    simp [resolveArgs, hroot, hpath, hsome]

/-- Witness for C6: on the root value from the spec, sub-path `.a.b[1]`
extracts `20` and is passed through; sub-path `.a.c` is absent and raises
the contract violation. -/
theorem subPath_extraction_witness :
    extract subPathRoot [.field "a", .field "b", .index 1] = some (.num 20) ∧
    resolveArgs (prepare subPathEnv 1)
        [some ⟨"root", some [.field "a", .field "b", .index 1]⟩] initState
      = (.ok [some (.num 20)], initState) ∧
    extract subPathRoot [.field "a", .field "c"] = none ∧
    resolveArgs (prepare subPathEnv 1)
        [some ⟨"root", some [.field "a", .field "c"]⟩] initState
      = (.error (.contractViolation "root"), initState) := by
  refine ⟨rfl, ?_, rfl, ?_⟩
  · exact (subPath_extraction (prepare subPathEnv 1)
      ⟨"root", some [.field "a", .field "b", .index 1]⟩
      [.field "a", .field "b", .index 1] rfl initState initState
      subPathRoot rfl).2 (.num 20) rfl []
  · exact (subPath_extraction (prepare subPathEnv 1)
      ⟨"root", some [.field "a", .field "c"]⟩
      [.field "a", .field "c"] rfl initState initState
      subPathRoot rfl).1 rfl []

/-- Helper: argument resolution never runs out of fuel if none of the
recursive root resolutions does. -/
theorem resolveArgs_ne_exhausted
    (rec : Token → ChefState → Except ChefError Value × ChefState)
    (descs : List (Option IngredientDescriptor))
    (hrec : ∀ d, some d ∈ descs → ∀ s',
      (rec d.rootToken s').1 ≠ .error .resourceExhausted) :
    ∀ s, (resolveArgs rec descs s).1 ≠ .error .resourceExhausted := by
  induction descs with
  | nil => intro s; simp [resolveArgs]
  | cons head rest ih =>
    have hrest : ∀ d, some d ∈ rest → ∀ s',
        (rec d.rootToken s').1 ≠ .error .resourceExhausted :=
      fun d hd => hrec d (List.mem_cons_of_mem _ hd)
    intro s
    cases head with
    | none =>
      simp only [resolveArgs]
      cases hr : resolveArgs rec rest s with
      | mk res s' =>
        cases res with
        | ok args => simp
        | error e =>
          have := ih hrest s
          rw [hr] at this
          simpa using this
    | some d =>
      simp only [resolveArgs]
      cases hd : rec d.rootToken s with
      | mk res s' =>
        cases res with
        | error e =>
          have := hrec d (List.mem_cons_self _ _) s
          rw [hd] at this
          simpa using this
        | ok rootVal =>
          cases hext : (match d.jsonPath with
                        | none => some rootVal
                        | some path => extract rootVal path) with
          | none => simp [hext]
          | some v =>
            simp only [hext]
            cases hr : resolveArgs rec rest s' with
            | mk res₂ s'' =>
              cases res₂ with
              | ok args => simp
              | error e =>
                have := ih hrest s'
                rw [hr] at this
                simpa using this

/-- Helper: with a rank function that strictly decreases along every
ingredient edge (an acyclicity certificate), resolution with fuel above the
rank of the requested token never exhausts its fuel. -/
theorem prepare_acyclic (env : Env) (rank : Token → Nat)
    (hrank : ∀ t rid, List.lookup t env.cookbook = some rid →
       ∀ d, some d ∈ (env.recipes rid).ingredients →
         rank d.rootToken < rank t) :
    ∀ fuel t s, rank t < fuel →
      (prepare env fuel t s).1 ≠ .error .resourceExhausted := by
  intro fuel
  induction fuel with
  | zero => intro t s h; omega
  | succ n ih =>
    intro t s h
    simp only [prepare]
    cases hp : env.pantry t with
    | some v => simp
    | none =>
      simp only
      cases hcb : List.lookup t env.cookbook with
      | none => simp
      | some rid =>
        simp only
        cases hc : List.lookup rid s.valueCache with
        | some v => simp
        | none =>
          simp only
          have hargs : ∀ d, some d ∈ (env.recipes rid).ingredients → ∀ s',
              (prepare env n d.rootToken s').1 ≠ .error .resourceExhausted := by
            intro d hd s'
            exact ih d.rootToken s' (by have := hrank t rid hcb d hd; omega)
          have hres := resolveArgs_ne_exhausted (prepare env n)
            (env.recipes rid).ingredients hargs s
          unfold invokeRecipe
          cases hr : resolveArgs (prepare env n) (env.recipes rid).ingredients s with
          | mk res s' =>
            cases res with
            | error e =>
              rw [hr] at hres
              simp only [hr]
              simpa using hres
            | ok args => simp only [hr]; simp

/-- C8: resolution performs no cycle detection. With an acyclicity
certificate (a rank function strictly decreasing along ingredient edges),
`prepare` with enough fuel never hits resource exhaustion, i.e. it is total
on acyclic dependency graphs; on the one-recipe self-cycle, every amount of
fuel ends in resource exhaustion — no dedicated cyclic-dependency error is
ever produced, as none exists in `ChefError`. -/
theorem no_cycle_detection :
    (∀ (env : Env) (rank : Token → Nat),
      (∀ t rid, List.lookup t env.cookbook = some rid →
         ∀ d, some d ∈ (env.recipes rid).ingredients →
           rank d.rootToken < rank t) →
      ∀ fuel t s, rank t < fuel →
        (prepare env fuel t s).1 ≠ .error .resourceExhausted) ∧
    (∀ fuel, prepare cyclicEnv fuel "Loop" initState
      = (.error .resourceExhausted, initState)) := by
  constructor
  · exact fun env rank h => prepare_acyclic env rank h
  · intro fuel
    induction fuel with
    | zero => rfl
    | succ n ih =>
      have hp : cyclicEnv.pantry "Loop" = none := rfl
      have hcb : List.lookup "Loop" cyclicEnv.cookbook = some 0 := rfl
      have hvc : List.lookup 0 initState.valueCache = none := rfl
      have hing : (cyclicEnv.recipes 0).ingredients
          = [some ⟨"Loop", none⟩] := rfl
      simp only [prepare, hp, hcb, hvc, invokeRecipe, hing, resolveArgs, ih]

/-- Witness for C8: the acyclic two-recipe environment resolves within rank
bound 2, while the cyclic environment exhausts any fuel, e.g. 7. -/
theorem no_cycle_detection_witness :
    (prepare chainEnv 2 "Top" initState).1 ≠ .error .resourceExhausted ∧
    prepare cyclicEnv 7 "Loop" initState
      = (.error .resourceExhausted, initState) := by
  constructor
  · apply no_cycle_detection.1 chainEnv chainRank ?_ 2 "Top" initState ?_
    · intro t rid hlook d hd
      by_cases h1 : t = "Top"
      · subst h1
        simp [chainEnv, List.lookup] at hlook
        subst hlook
        simp only [chainEnv] at hd
        simp at hd
        subst hd
        simp [chainRank]
      · by_cases h2 : t = "Leaf"
        · subst h2
          simp [chainEnv, List.lookup] at hlook
          subst hlook
          simp only [chainEnv] at hd
          simp at hd
        · have e1 : (t == "Top") = false := beq_eq_false_iff_ne.mpr h1
          have e2 : (t == "Leaf") = false := beq_eq_false_iff_ne.mpr h2
          simp [chainEnv, List.lookup, e1, e2] at hlook
    · simp [chainRank]
  · exact no_cycle_detection.2 7

@[simp]
theorem mkPlate_decision (budget : Option Nat) (item : PreparedItem)
    (d : PlanDecision) (b a : Nat) :
    (mkPlate budget item d b a).decision
      = plateDecision budget d.incl item.index := rfl

@[simp]
theorem mkPlate_cost (budget : Option Nat) (item : PreparedItem)
    (d : PlanDecision) (b a : Nat) :
    (mkPlate budget item d b a).cost = d.usedCost := rfl

@[simp]
theorem mkPlate_before (budget : Option Nat) (item : PreparedItem)
    (d : PlanDecision) (b a : Nat) :
    (mkPlate budget item d b a).runningTotalBefore = b := rfl

@[simp]
theorem mkPlate_after (budget : Option Nat) (item : PreparedItem)
    (d : PlanDecision) (b a : Nat) :
    (mkPlate budget item d b a).runningTotalAfter = a := rfl

@[simp]
theorem mkPlate_originalCost (budget : Option Nat) (item : PreparedItem)
    (d : PlanDecision) (b a : Nat) :
    (mkPlate budget item d b a).originalCost = item.baselineCost := rfl

@[simp]
theorem mkPlate_compressedCost (budget : Option Nat) (item : PreparedItem)
    (d : PlanDecision) (b a : Nat) :
    (mkPlate budget item d b a).compressedCost = item.compressedCost := rfl

@[simp]
theorem mkPlate_wasCompressed (budget : Option Nat) (item : PreparedItem)
    (d : PlanDecision) (b a : Nat) :
    (mkPlate budget item d b a).wasCompressed = d.usedCompressed := rfl

/-- Helper: plating with `incl = true` never yields the dropped decision,
and with `incl = false` always does. -/
theorem plateDecision_dropped_iff (budget : Option Nat) (incl : Bool)
    (index : Nat) :
    plateDecision budget incl index = .dropped ↔ incl = false := by
  cases incl with
  | false => cases budget <;> simp [plateDecision]
  | true =>
    cases budget with
    | none => simp [plateDecision]
    | some b =>
      simp only [plateDecision, if_true]
      by_cases h : (index == 0 : Bool) = true <;> simp [h]

/-- Helper: the kept-cost sum over a cons. -/
theorem keptCosts_cons (p : PlateInfo) (plates : List PlateInfo) :
    keptCosts (p :: plates)
      = (if p.decision = .dropped then 0 else p.cost) + keptCosts plates := by
  by_cases h : p.decision = .dropped <;>
    simp [keptCosts, List.filter_cons, h]

/-- Helper: the plating fold produces a consistent accounting chain for any
plan: each plate's totals connect, the final total is the incoming total
plus the kept costs, and the last plate's `runningTotalAfter` is the final
total. -/
theorem plateItems_spec (budget : Option Nat)
    (plan : List (Nat × PlanDecision)) :
    ∀ (items : List PreparedItem) (t : Nat) lines total plates,
      plateItems budget plan items t = (lines, total, plates) →
      chainFrom t plates ∧
      total = t + keptCosts plates ∧
      (∀ q, plates.getLast? = some q → q.runningTotalAfter = total) ∧
      (plates = [] → total = t) := by
  intro items
  induction items with
  | nil =>
    intro t lines total plates h
    simp only [plateItems, Prod.mk.injEq] at h
    obtain ⟨rfl, rfl, rfl⟩ := h
    simp [chainFrom, keptCosts]
  | cons item rest ih =>
    intro t lines total plates h
    simp only [plateItems] at h
    cases hl : List.lookup item.index plan with
    | none =>
      simp only [hl] at h
      exact ih t lines total plates h
    | some d =>
      simp only [hl] at h
      cases hrec : plateItems budget plan rest
          (if d.incl then t + d.usedCost else t) with
      | mk lines' p2 =>
        cases p2 with
        | mk total' plates' =>
          simp only [hrec, Prod.mk.injEq] at h
          obtain ⟨rfl, rfl, rfl⟩ := h
          obtain ⟨hchain, htot, hlast, hnil⟩ :=
            ih (if d.incl then t + d.usedCost else t) lines' total' plates' hrec
          have hd2 : plateDecision budget d.incl item.index = .dropped
              ↔ d.incl = false :=
            plateDecision_dropped_iff budget d.incl item.index
          refine ⟨?_, ?_, ?_, by simp⟩
          · refine ⟨rfl, ?_, ?_⟩
            · cases hincl : d.incl with
              | true =>
                rw [hincl] at hd2
                have hnd : ¬ plateDecision budget true item.index
                    = .dropped := by simp [hd2]
                simp [hincl, hnd]
              | false =>
                rw [hincl] at hd2
                have hnd : plateDecision budget false item.index
                    = .dropped := by simp [hd2]
                simp [hincl, hnd]
            · simpa using hchain
          · rw [keptCosts_cons]
            simp only [mkPlate_decision, mkPlate_cost]
            cases hincl : d.incl with
            | true =>
              rw [hincl] at hd2
              have hnd : ¬ plateDecision budget true item.index
                  = .dropped := by simp [hd2]
              rw [hincl] at htot
              simp at htot
              simp [hnd]
              omega
            | false =>
              rw [hincl] at hd2
              have hnd : plateDecision budget false item.index
                  = .dropped := by simp [hd2]
              rw [hincl] at htot
              simp at htot
              simp [hnd]
              omega
          · intro q hq
            cases plates' with
            | nil =>
              simp only [List.getLast?_singleton, Option.some.injEq] at hq
              subst hq
              have htt : total' = (if d.incl then t + d.usedCost else t) :=
                hnil rfl
              rw [mkPlate_after]
              exact htt.symm
            | cons q0 qs =>
              rw [List.getLast?_cons_cons] at hq
              exact hlast q hq

/-- C9: every explain-mode cook result forms a consistent accounting chain
in original order — the first plate starts at 0, each plate's
`runningTotalBefore` is the previous `runningTotalAfter`, included plates
add exactly their cost, dropped plates add nothing, and `totalTokens` is
the sum of the costs of the non-dropped plates, equal to the last plate's
`runningTotalAfter` when plates exist. -/
theorem accounting_chain (env : Env) (fuel : Nat)
    (order : Option (List OrderItem)) (budget : Option Nat)
    (ct : Option (String → Nat)) (rp : Option (RankInfo → Int))
    (s s' : ChefState) (res : CookExplainResult)
    (h : cookExplain env fuel order budget ct rp s = (.ok res, s')) :
    chainFrom 0 res.plates ∧
    res.totalTokens = keptCosts res.plates ∧
    (∀ q, res.plates.getLast? = some q →
      q.runningTotalAfter = res.totalTokens) := by
  simp only [cookExplain] at h
  cases hm : materializeItems env fuel (ct.getD defaultCountTokens)
      (rp.getD defaultRankPriority) true (normalizeOrder env order) s with
  | mk mres s₁ =>
    simp only [hm] at h
    cases mres with
    | error e => simp at h
    | ok items =>
      cases hpl : plateItems budget (cookPlan budget items).1 items 0 with
      | mk lines p2 =>
        cases p2 with
        | mk total plates =>
          simp only [hpl, Prod.mk.injEq, Except.ok.injEq] at h
          obtain ⟨rfl, rfl⟩ := h
          obtain ⟨hchain, htot, hlast, _⟩ :=
            plateItems_spec budget (cookPlan budget items).1 items 0
              lines total plates hpl
          exact ⟨hchain, by simpa using htot, fun q hq => hlast q hq⟩

/-- Witness for C9: the accounting chain holds on a concrete budgeted cook
over `demoEnv`. -/
theorem accounting_chain_witness :
    chainFrom 0 resBudget.plates ∧
    resBudget.totalTokens = keptCosts resBudget.plates := by
  have h := accounting_chain demoEnv 5 (some [.bare "A", .bare "B"]) (some 5)
    none none initState
    (cookExplain demoEnv 5 (some [.bare "A", .bare "B"]) (some 5)
      none none initState).2
    resBudget rfl
  exact ⟨h.1, h.2.1⟩

/-- Helper: materialization preserves the order item's index. -/
theorem materializeOne_index (env : Env) (fuel : Nat) (ct : String → Nat)
    (rank : RankInfo → Int) (explain : Bool) (it : NormalizedItem)
    (s s' : ChefState) (p : PreparedItem)
    (h : materializeOne env fuel ct rank explain it s = (.ok p, s')) :
    p.index = it.index := by
  simp only [materializeOne] at h
  split at h
  · simp at h
  · cases hexp : explain with
    | true =>
      subst hexp
      simp only [if_true] at h
      split at h
      · simp at h
      · simp only [Prod.mk.injEq, Except.ok.injEq] at h
        obtain ⟨rfl, rfl⟩ := h
        rfl
    | false =>
      subst hexp
      simp only [Bool.false_eq_true, if_false] at h
      simp only [Prod.mk.injEq, Except.ok.injEq] at h
      obtain ⟨rfl, rfl⟩ := h
      rfl

/-- Helper: the materialized list carries the normalized items' indexes in
order. -/
theorem materializeItems_indexes (env : Env) (fuel : Nat) (ct : String → Nat)
    (rank : RankInfo → Int) (explain : Bool) :
    ∀ (l : List NormalizedItem) (s : ChefState) items s',
      materializeItems env fuel ct rank explain l s = (.ok items, s') →
      items.map (·.index) = l.map (·.index) := by
  intro l
  induction l with
  | nil =>
    intro s items s' h
    simp only [materializeItems, Prod.mk.injEq, Except.ok.injEq] at h
    obtain ⟨rfl, rfl⟩ := h
    rfl
  | cons it rest ih =>
    intro s items s' h
    simp only [materializeItems] at h
    cases hm : materializeOne env fuel ct rank explain it s with
    | mk r s₁ =>
      simp only [hm] at h
      cases r with
      | error e => simp at h
      | ok p =>
        cases hr : materializeItems env fuel ct rank explain rest s₁ with
        | mk r₂ s₂ =>
          simp only [hr] at h
          cases r₂ with
          | error e => simp at h
          | ok ps =>
            simp only [Prod.mk.injEq, Except.ok.injEq] at h
            obtain ⟨rfl, rfl⟩ := h
            simp only [List.map_cons]
            rw [materializeOne_index env fuel ct rank explain it s s₁ p hm,
              ih s₁ ps s₂ hr]

/-- Helper: mapping an index-preserving builder over an enumeration yields
the index range. -/
theorem enum_build_indexes {α : Type} (l : List α)
    (g : Nat × α → NormalizedItem) (hg : ∀ p, (g p).index = p.1) :
    (l.enum.map g).map (·.index) = List.range l.length := by
  rw [List.map_map]
  have h1 : ((fun it : NormalizedItem => it.index) ∘ g) = Prod.fst :=
    funext hg
  rw [h1, List.enum_map_fst]

/-- Helper: the default order enumerates indexes 0, 1, 2, ... -/
theorem defaultOrder_indexes (env : Env) :
    (defaultOrder env).map (·.index) = List.range (defaultOrder env).length := by
  simp only [defaultOrder]
  rw [enum_build_indexes _ _ (fun p => rfl)]
  simp

/-- Helper: any normalized order enumerates indexes 0, 1, 2, ... -/
theorem normalizeOrder_indexes (env : Env) (order : Option (List OrderItem)) :
    (normalizeOrder env order).map (·.index)
      = List.range (normalizeOrder env order).length := by
  cases order with
  | none => exact defaultOrder_indexes env
  | some items =>
    by_cases hl : items.length > 0
    · simp only [normalizeOrder, hl, if_true]
      rw [enum_build_indexes _ _ ?hg]
      · simp
      case hg =>
        intro p
        cases hp : p.2 <;> simp [normalizeOrderItem, hp]
    · simp only [normalizeOrder, hl, if_false]
      exact defaultOrder_indexes env

/-- Helper: in a plan built by mapping a decision function over items with
distinct indexes, every item looks up its own decision. -/
theorem lookup_map_of_nodup (g : PreparedItem → PlanDecision) :
    ∀ (items : List PreparedItem),
      (items.map (·.index)).Nodup →
      ∀ it ∈ items,
        List.lookup it.index (items.map fun x => (x.index, g x))
          = some (g it) := by
  intro items
  induction items with
  | nil => intro _ it h; simp at h
  | cons x rest ih =>
    intro hnodup it hmem
    simp only [List.map_cons, List.nodup_cons] at hnodup
    obtain ⟨hx, hrest⟩ := hnodup
    rcases List.mem_cons.mp hmem with rfl | hm
    · simp [List.lookup]
    · have hne : it.index ≠ x.index := by
        intro e
        exact hx (e ▸ List.mem_map.mpr ⟨it, hm, rfl⟩)
      have hbeq : (it.index == x.index) = false :=
        beq_eq_false_iff_ne.mpr hne
      simp only [List.map_cons, List.lookup, hbeq]
      exact ih hrest it hm

/-- Helper: plating under the no-budget plan includes every item at its
baseline cost with decision `included`. -/
theorem plateItems_noBudget (plan : List (Nat × PlanDecision)) :
    ∀ (items : List PreparedItem) (t : Nat),
      (∀ it ∈ items, List.lookup it.index plan
        = some ⟨true, it.index == 0, false, it.baselineRendered,
            it.baselineCost, "no budget provided"⟩) →
      ∀ lines total plates, plateItems none plan items t = (lines, total, plates) →
        plates.length = items.length ∧
        total = t + (plates.map (·.originalCost)).sum ∧
        ∀ p ∈ plates, p.decision = .included ∧ p.wasCompressed = false ∧
          p.cost = p.originalCost := by
  intro items
  induction items with
  | nil =>
    intro t h lines total plates hp
    simp only [plateItems, Prod.mk.injEq] at hp
    obtain ⟨rfl, rfl, rfl⟩ := hp
    simp
  | cons item rest ih =>
    intro t h lines total plates hp
    have hhead := h item (List.mem_cons_self _ _)
    simp only [plateItems, hhead] at hp
    cases hrec : plateItems none plan rest (t + item.baselineCost) with
    | mk lines' p2 =>
      cases p2 with
      | mk total' plates' =>
        simp only [hrec, Prod.mk.injEq] at hp
        obtain ⟨rfl, rfl, rfl⟩ := hp
        obtain ⟨hlen, htot, hall⟩ :=
          ih (t + item.baselineCost)
            (fun x hx => h x (List.mem_cons_of_mem _ hx))
            lines' total' plates' hrec
        refine ⟨?_, ?_, ?_⟩
        · simp only [if_true]
          rw [hrec]
          simp [hlen]
        · simp only [if_true]
          rw [hrec]
          simp only [List.map_cons, List.sum_cons, mkPlate_originalCost]
          omega
        · simp only [if_true]
          rw [hrec]
          intro p hpm
          rcases List.mem_cons.mp hpm with rfl | hm
          · refine ⟨?_, rfl, rfl⟩
            simp [plateDecision]
          · exact hall p hm

/-- C2: a cook call without a budget includes every requested order item —
one plate per order item, each with decision `included`, never compressed,
served at baseline cost — and `totalTokens` is the sum of the items'
baseline costs. -/
theorem no_budget_all_baseline (env : Env) (fuel : Nat)
    (order : Option (List OrderItem)) (ct : Option (String → Nat))
    (rp : Option (RankInfo → Int)) (s s' : ChefState)
    (res : CookExplainResult)
    (h : cookExplain env fuel order none ct rp s = (.ok res, s')) :
    res.plates.length = (normalizeOrder env order).length ∧
    res.totalTokens = (res.plates.map (·.originalCost)).sum ∧
    ∀ p ∈ res.plates, p.decision = .included ∧ p.wasCompressed = false ∧
      p.cost = p.originalCost := by
  simp only [cookExplain] at h
  cases hm : materializeItems env fuel (ct.getD defaultCountTokens)
      (rp.getD defaultRankPriority) true (normalizeOrder env order) s with
  | mk mres s₁ =>
    simp only [hm] at h
    cases mres with
    | error e => simp at h
    | ok items =>
      have hidx := materializeItems_indexes env fuel (ct.getD defaultCountTokens)
        (rp.getD defaultRankPriority) true (normalizeOrder env order) s items s₁ hm
      have hnodup : (items.map (·.index)).Nodup := by
        rw [hidx, normalizeOrder_indexes]
        exact List.nodup_range _
      have hlen : items.length = (normalizeOrder env order).length := by
        have := congrArg List.length hidx
        simpa using this
      have hlook := lookup_map_of_nodup
        (fun x => ⟨true, x.index == 0, false, x.baselineRendered,
          x.baselineCost, "no budget provided"⟩) items hnodup
      cases hpl : plateItems none (cookPlan none items).1 items 0 with
      | mk lines p2 =>
        cases p2 with
        | mk total plates =>
          simp only [hpl, Prod.mk.injEq, Except.ok.injEq] at h
          obtain ⟨rfl, rfl⟩ := h
          obtain ⟨hplen, htot, hall⟩ :=
            plateItems_noBudget (cookPlan none items).1 items 0
              (fun it hit => hlook it hit) lines total plates hpl
          exact ⟨hplen.trans hlen, by simpa using htot, hall⟩

/-- Witness for C2: the two-item cook over `demoEnv` without a budget. -/
theorem no_budget_all_baseline_witness :
    resNoBudget.plates.length
      = (normalizeOrder demoEnv (some [.bare "A", .bare "B"])).length ∧
    resNoBudget.totalTokens = (resNoBudget.plates.map (·.originalCost)).sum :=
  by
  have h := no_budget_all_baseline demoEnv 5 (some [.bare "A", .bare "B"])
    none none initState
    (cookExplain demoEnv 5 (some [.bare "A", .bare "B"]) none
      none none initState).2
    resNoBudget rfl
  exact ⟨h.1, h.2.1⟩

/-- Helper: the candidate loop only appends to the accumulated plan. -/
theorem planCandidates_acc (b : Nat) :
    ∀ (cands : List PreparedItem) (t : Nat) (plan : List (Nat × PlanDecision)),
      (planCandidates b cands t plan).1
        = plan ++ (planCandidates b cands t []).1 := by
  intro cands
  induction cands with
  | nil => intro t plan; simp [planCandidates]
  | cons c rest ih =>
    intro t plan
    simp only [planCandidates]
    cases hs : planStep b t c with
    | mk d t' =>
      rw [ih t' (plan ++ [(c.index, d)]), ih t' ([] ++ [(c.index, d)])]
      simp

/-- Helper: the first item's decision always includes it, forced. -/
theorem planFirst_basic (first : PreparedItem) :
    (planFirst first).incl = true ∧ (planFirst first).forced = true := by
  unfold planFirst
  split
  · split <;> exact ⟨rfl, rfl⟩
  · exact ⟨rfl, rfl⟩

/-- Helper: the first item's compressed form is used only when a compressed
cost exists and is strictly below baseline, in which case it is the used
cost; otherwise the baseline cost is used. -/
theorem planFirst_compressed (first : PreparedItem) :
    ((planFirst first).usedCompressed = true →
      ∃ c, first.compressedCost = some c ∧ c < first.baselineCost ∧
        (planFirst first).usedCost = c) ∧
    ((planFirst first).usedCompressed = false →
      (planFirst first).usedCost = first.baselineCost) := by
  cases hr : first.compressedRendered with
  | none => simp [planFirst, hr]
  | some r =>
    cases hc : first.compressedCost with
    | none => simp [planFirst, hr, hc]
    | some c =>
      by_cases hlt : r ≠ "" ∧ c < first.baselineCost
      · refine ⟨fun _ => ⟨c, rfl, hlt.2, ?_⟩, fun hu => ?_⟩
        · simp [planFirst, hr, hc, hlt]
        · exfalso
          simp [planFirst, hr, hc, hlt] at hu
      · constructor
        · intro hu
          exfalso
          simp [planFirst, hr, hc, hlt] at hu
        · intro _
          simp [planFirst, hr, hc, hlt]

/-- Helper: a non-empty explicit order normalizes to a cons whose head is
the first order item at index 0. -/
theorem normalizeOrder_cons (env : Env) (o : OrderItem)
    (os : List OrderItem) :
    normalizeOrder env (some (o :: os))
      = normalizeOrderItem 0 o
        :: (os.enumFrom 1).map (fun p => normalizeOrderItem p.1 p.2) := by
  simp [normalizeOrder, List.enum_cons]

/-- C1: in every budgeted cook of a non-empty order, the first order item is
always included: its plate is first, carries decision `forced-include`,
starts the running total at 0, and adds its chosen cost unconditionally;
its compressed form is substituted only when a compressed fallback exists
with cost strictly below baseline (in which case the chosen cost is the
compressed cost), otherwise the baseline cost is charged. -/
theorem first_item_forced (env : Env) (fuel : Nat) (o : OrderItem)
    (os : List OrderItem) (b : Nat) (ct : Option (String → Nat))
    (rp : Option (RankInfo → Int)) (s s' : ChefState)
    (res : CookExplainResult)
    (h : cookExplain env fuel (some (o :: os)) (some b) ct rp s
      = (.ok res, s')) :
    ∃ p rest, res.plates = p :: rest ∧
      p.decision = .forcedInclude ∧
      p.runningTotalBefore = 0 ∧
      p.runningTotalAfter = p.cost ∧
      (p.wasCompressed = true →
        ∃ c, p.compressedCost = some c ∧ c < p.originalCost ∧ p.cost = c) ∧
      (p.wasCompressed = false → p.cost = p.originalCost) := by
  rw [cookExplain, normalizeOrder_cons] at h
  simp only [materializeItems] at h
  cases hm0 : materializeOne env fuel (ct.getD defaultCountTokens)
      (rp.getD defaultRankPriority) true (normalizeOrderItem 0 o) s with
  | mk r0 s₁ =>
    simp only [hm0] at h
    cases r0 with
    | error e => simp at h
    | ok p₀ =>
      cases hmr : materializeItems env fuel (ct.getD defaultCountTokens)
          (rp.getD defaultRankPriority) true
          ((os.enumFrom 1).map (fun p => normalizeOrderItem p.1 p.2)) s₁ with
      | mk rr s₂ =>
        simp only [hmr] at h
        cases rr with
        | error e => simp at h
        | ok ps =>
          have hidx0 : p₀.index = 0 := by
            have hi := materializeOne_index env fuel (ct.getD defaultCountTokens)
              (rp.getD defaultRankPriority) true (normalizeOrderItem 0 o)
              s s₁ p₀ hm0
            rw [hi]
            cases o <;> rfl
          have hplan : (cookPlan (some b) (p₀ :: ps)).1
              = (p₀.index, planFirst p₀)
                :: (planCandidates b (sortCandidates ps)
                     (planFirst p₀).usedCost []).1 := by
            simp only [cookPlan]
            rw [planCandidates_acc]
            simp
          simp only [hplan] at h
          simp only [plateItems, List.lookup] at h
          rw [beq_self_eq_true] at h
          simp only [if_true] at h
          rw [(planFirst_basic p₀).1] at h
          simp only [if_true] at h
          cases hpl' : plateItems (some b)
              ((p₀.index, planFirst p₀)
                :: (planCandidates b (sortCandidates ps)
                     (planFirst p₀).usedCost []).1) ps
              (0 + (planFirst p₀).usedCost) with
          | mk lines' p2 =>
            cases p2 with
            | mk total' plates' =>
              rw [hpl'] at h
              simp only [Prod.mk.injEq, Except.ok.injEq] at h
              obtain ⟨rfl, rfl⟩ := h
              refine ⟨_, plates', rfl, ?_, rfl, ?_, ?_, ?_⟩
              · rw [mkPlate_decision, (planFirst_basic p₀).1, hidx0]
                simp [plateDecision]
              · simp
              · intro hw
                rw [mkPlate_wasCompressed] at hw
                obtain ⟨c, hc, hlt, hcost⟩ := (planFirst_compressed p₀).1 hw
                exact ⟨c, by simp [hc], by simpa using hlt, by simp [hcost]⟩
              · intro hw
                rw [mkPlate_wasCompressed] at hw
                have := (planFirst_compressed p₀).2 hw
                simp [this]

/-- Witness for C1: the one-item budgeted cook over `demoEnv`. -/
theorem first_item_forced_witness :
    ∃ p rest, resFirstOnly.plates = p :: rest ∧
      p.decision = .forcedInclude ∧
      p.runningTotalBefore = 0 ∧
      p.runningTotalAfter = p.cost ∧
      (p.wasCompressed = true →
        ∃ c, p.compressedCost = some c ∧ c < p.originalCost ∧ p.cost = c) ∧
      (p.wasCompressed = false → p.cost = p.originalCost) :=
  first_item_forced demoEnv 5 (.bare "A") [] 10 none none initState
    (cookExplain demoEnv 5 (some [.bare "A"]) (some 10)
      none none initState).2
    resFirstOnly rfl

instance : IsTotal PreparedItem candLE :=
  ⟨fun a b => by unfold candLE; omega⟩

instance : IsTrans PreparedItem candLE :=
  ⟨fun a b c => by unfold candLE; omega⟩

/-- C4: the planner's candidate sort is a permutation of the non-first items
ordered by priority score descending, then minimum viable cost ascending,
then original index ascending; the budgeted plan is built by the greedy loop
over exactly this sorted list, so of two candidates with different priority
scores the higher-priority one is planned first (priority scores are
non-increasing along the planning order). -/
theorem planner_sort_order (items : List PreparedItem) :
    (sortCandidates items).Perm items ∧
    List.Sorted candLE (sortCandidates items) ∧
    (∀ (b : Nat) (first : PreparedItem),
      cookPlan (some b) (first :: items)
        = planCandidates b (sortCandidates items) (planFirst first).usedCost
            [(first.index, planFirst first)]) ∧
    (∀ (i j : Nat) (hi : i < (sortCandidates items).length)
        (hj : j < (sortCandidates items).length), i < j →
      ((sortCandidates items).get ⟨j, hj⟩).priorityScore
        ≤ ((sortCandidates items).get ⟨i, hi⟩).priorityScore) := by
  refine ⟨List.perm_insertionSort candLE items,
    List.sorted_insertionSort candLE items, fun b first => rfl, ?_⟩
  intro i j hi hj hij
  have hs := List.sorted_insertionSort candLE items
  have hscore : ∀ a b, candLE a b → b.priorityScore ≤ a.priorityScore := by
    intro a b hab
    unfold candLE at hab
    omega
  exact hscore _ _ (List.Sorted.rel_get_of_lt hs
    (a := ⟨i, hi⟩) (b := ⟨j, hj⟩) hij)

/-- Witness for C4: with a low-priority candidate listed before a
high-priority one, the sorted planning order puts the high-priority
candidate first. -/
theorem planner_sort_order_witness :
    candLo.priorityScore < candHi.priorityScore ∧
    ((sortCandidates [candLo, candHi]).get
        ⟨1, by decide⟩).priorityScore
      ≤ ((sortCandidates [candLo, candHi]).get
          ⟨0, by decide⟩).priorityScore := by
  refine ⟨by decide, ?_⟩
  exact (planner_sort_order [candLo, candHi]).2.2.2 0 1
    (by decide) (by decide) (by decide)

/-- Counterexample to C3 as stated: in the budgeted `demoEnv` cook, item "B"
(non-first) is dropped although its recorded compressed cost 0 fits the
remaining budget (running total 1, budget 5) — because its compressed
rendering is the empty string, which the source's truthiness test on
`compressedRendered` rejects. -/
theorem greedy_drop_counterexample :
    (resBudget.plates.get? 1).map (fun p => p.decision)
      = some .dropped ∧
    (resBudget.plates.get? 1).map (fun p => p.compressedCost)
      = some (some 0) ∧
    (resBudget.plates.get? 1).map (fun p => p.runningTotalBefore)
      = some 1 ∧
    resBudget.budget = some 5 ∧
    1 + 0 ≤ 5 := by
  refine ⟨?_, ?_, ?_, ?_, ?_⟩ <;> decide

/-- C3 (amended): the candidate loop evaluates each non-first item greedily
against the running total, baseline first, then the compressed fallback
provided its rendering is a non-empty string, updating the total
immediately on inclusion; an item is dropped only if its baseline does not
fit and no non-empty-rendered compressed cost fits, and a drop leaves the
running total unchanged. -/
theorem greedy_candidate_step (budget t : Nat) (cand : PreparedItem) :
    (∀ rest plan, planCandidates budget (cand :: rest) t plan
      = planCandidates budget rest (planStep budget t cand).2
          (plan ++ [(cand.index, (planStep budget t cand).1)])) ∧
    (t + cand.baselineCost ≤ budget →
      planStep budget t cand
        = (⟨true, false, false, cand.baselineRendered, cand.baselineCost,
            "selected by priority within budget"⟩, t + cand.baselineCost)) ∧
    (¬ (t + cand.baselineCost ≤ budget) →
      ∀ r c, cand.compressedRendered = some r → r ≠ "" →
        cand.compressedCost = some c → t + c ≤ budget →
        planStep budget t cand
          = (⟨true, false, true, r, c, "compressed to fit budget"⟩, t + c)) ∧
    ((planStep budget t cand).1.incl = false →
      budget < t + cand.baselineCost ∧
      (∀ r c, cand.compressedRendered = some r → r ≠ "" →
        cand.compressedCost = some c → budget < t + c) ∧
      (planStep budget t cand).2 = t) := by
  refine ⟨fun rest plan => rfl, ?_, ?_, ?_⟩
  · intro hfit
    simp [planStep, hfit]
  · intro hnofit r c hr hrne hc hcfit
    simp [planStep, hnofit, hr, hc, hrne, hcfit]
  · intro hdrop
    by_cases hfit : t + cand.baselineCost ≤ budget
    · exfalso
      simp [planStep, hfit] at hdrop
    · refine ⟨by omega, ?_, ?_⟩
      · intro r c hr hrne hc
        simp only [planStep, hfit, if_false] at hdrop
        rw [hr, hc] at hdrop
        by_cases hcc : r ≠ "" ∧ t + c ≤ budget
        · simp [hcc] at hdrop
        · rcases not_and_or.mp hcc with hrne' | hle
          · exact absurd hrne hrne'
          · omega
      · by_cases hcase : ∃ r c, cand.compressedRendered = some r ∧
            cand.compressedCost = some c
        · obtain ⟨r, c, hr, hc⟩ := hcase
          simp only [planStep, hfit, if_false] at hdrop ⊢
          rw [hr, hc] at hdrop ⊢
          by_cases hcc : r ≠ "" ∧ t + c ≤ budget
          · simp [hcc] at hdrop
          · simp [hcc]
        · simp only [planStep, hfit, if_false] at hdrop ⊢
          cases hr : cand.compressedRendered with
          | none => cases hc2 : cand.compressedCost <;> rfl
          | some r =>
            cases hc : cand.compressedCost with
            | none => rfl
            | some c => exact absurd ⟨r, c, hr, hc⟩ hcase

/-- Witness for C3 (amended): `candBig` (baseline 10, compressed "CC" at
cost 10) is dropped at running total 1 under budget 5, and indeed neither
cost fits and the total is unchanged. -/
theorem greedy_candidate_step_witness :
    (planStep 5 1 candBig).1.incl = false ∧
    5 < 1 + candBig.baselineCost ∧
    (planStep 5 1 candBig).2 = 1 := by
  have h := (greedy_candidate_step 5 1 candBig).2.2.2 (by decide)
  exact ⟨by decide, h.1, h.2.2⟩

/-- C7: when a compressible recipe's summary-token resolution fails, the
failure is swallowed: materialization still succeeds (the cook call is not
aborted), the item simply carries no compressed fallback, and nothing but
the absent `compressedCost`/`compressedRendered`/`compressionNote` records
the attempt. -/
theorem compression_failure_swallowed (env : Env) (fuel : Nat)
    (ct : String → Nat) (rank : RankInfo → Int) (it : NormalizedItem)
    (s s₁ s₂ : ChefState) (v : Value) (e : ChefError) (rid : Nat)
    (st : Token) (tr : List TraceEntry)
    (hctor : List.lookup it.token env.cookbook = some rid)
    (hcomp : (env.recipes rid).compressible = true)
    (hsum : (env.recipes rid).summaryRecipe = some st)
    (hne : st ≠ "")
    (hmain : prepare env fuel it.token s = (.ok v, s₁))
    (hfail : prepare env fuel st s₁ = (.error e, s₂))
    (htr : trace env fuel it.token = .ok tr) :
    ∃ p, materializeOne env fuel ct rank true it s = (.ok p, s₂) ∧
      p.compressedRendered = none ∧ p.compressedCost = none ∧
      p.compressionNote = none := by
  simp only [materializeOne, hmain, hctor, hcomp, hsum, hne, hfail, htr]
  simp [hcomp, hne]

/-- Witness for C7: recipe "X" declares summary token "missing", which is
registered nowhere; its resolution error is swallowed and "X" is
materialized with no compressed fallback. -/
theorem compression_failure_swallowed_witness :
    ∃ p, materializeOne missingSummaryEnv 3 defaultCountTokens
        defaultRankPriority true ⟨"X", "full", 0⟩ initState
      = (.ok p, ⟨[(0, .str "hello")], [0]⟩) ∧
      p.compressedRendered = none ∧ p.compressedCost = none ∧
      p.compressionNote = none :=
  compression_failure_swallowed missingSummaryEnv 3 defaultCountTokens
    defaultRankPriority ⟨"X", "full", 0⟩ initState
    ⟨[(0, .str "hello")], [0]⟩ ⟨[(0, .str "hello")], [0]⟩
    (.str "hello") (.noProvider "missing") 0 "missing"
    [⟨"X", "X", []⟩] rfl rfl rfl (by decide) rfl rfl rfl

end Chef
